import Mathlib

/-!
# Verification of the decentralized digital time-capsule canister

Shallow embedding of `src/src/icp_rust_boilerplate_backend/src/lib.rs`.

The canister's ambient state (the stable B-tree map `CAPSULE_STORAGE` and the
stable cell `ID_COUNTER`) is made explicit as a `State` value threaded through
the operations.  The host-supplied caller identity (`ic_cdk::caller()`) and
clock (`ic_cdk::api::time()`) become explicit parameters.  `u64` timestamps and
ids are modelled as `Nat`; `f64` coordinates are modelled as exact rationals
(`ℚ`), with the haversine computation idealised over the reals (`ℝ`).
`Result<T, String>` becomes `Except String T`.
-/

namespace TimeCapsuleSys

/-- Content variants (`enum CapsuleContent`).  `Vec<u8>` is a `List Nat` of
byte values; the `MultipartMessage` variant is recursive. -/
inductive CapsuleContent where
  | Text (s : String)
  | EncryptedMessage (content : List Nat) (public_key : String)
  | MediaReference (ipfs_hash : String) (media_type : String)
  | MultipartMessage (parts : List CapsuleContent) (title : String)

/-- Access control variants (`enum AccessControl`). -/
inductive AccessControl where
  | Public
  | Private (allowed_viewers : List String)
  | Conditional (condition_type : String) (condition_data : String)

/-- Optional geolocation in the metadata (`struct GeoLocation`); `f64`
coordinates are modelled as exact rationals. -/
structure GeoLocation where
  latitude : ℚ
  longitude : ℚ
  location_name : String

/-- Capsule metadata (`struct CapsuleMetadata`). -/
structure CapsuleMetadata where
  title : String
  description : String
  tags : List String
  location : Option GeoLocation
  cultural_significance : Option String

/-- Capsule status (`enum CapsuleStatus`). -/
inductive CapsuleStatus where
  | Sealed
  | UnlockPending
  | Unlocked
  | Archived

/-- The stored record (`struct TimeCapsule`). -/
structure TimeCapsule where
  id : Nat
  creator : String
  creation_date : Nat
  unlock_date : Nat
  content : CapsuleContent
  access_control : AccessControl
  metadata : CapsuleMetadata
  status : CapsuleStatus

/-- Creation request (`struct CreateCapsulePayload`). -/
structure CreateCapsulePayload where
  content : CapsuleContent
  unlock_date : Nat
  access_control : AccessControl
  metadata : CapsuleMetadata

/-- Lookup in the ordered id-to-capsule map (`StableBTreeMap::get`). -/
def mapGet (k : Nat) : List (Nat × TimeCapsule) → Option TimeCapsule
  | [] => none
  | (k', v) :: rest => if k = k' then some v else mapGet k rest

/-- Ordered insertion into the id-to-capsule map (`StableBTreeMap::insert`):
the map is kept sorted by key, and an existing key is overwritten. -/
def mapInsert (k : Nat) (v : TimeCapsule) : List (Nat × TimeCapsule) → List (Nat × TimeCapsule)
  | [] => [(k, v)]
  | (k', v') :: rest =>
      if k < k' then (k, v) :: (k', v') :: rest
      else if k = k' then (k, v) :: rest
      else (k', v') :: mapInsert k v rest

/-- The canister's stable state: the `ID_COUNTER` cell and the
`CAPSULE_STORAGE` map (as its ascending-key entry list). -/
structure State where
  idCounter : Nat
  storage : List (Nat × TimeCapsule)

/-- Fresh stable state: counter initialised to 0, empty storage. -/
def initState : State := { idCounter := 0, storage := [] }

/-- `create_time_capsule` (lib.rs lines 124-156): reject a non-future unlock
date, otherwise allocate the next id, build the record with status `Sealed`,
insert it, and return it. -/
def create_time_capsule (caller : String) (current_time : Nat)
    (payload : CreateCapsulePayload) (st : State) :
    Except String TimeCapsule × State :=
  if payload.unlock_date ≤ current_time then
    (Except.error "Unlock date must be in the future", st)
  else
    let capsule_id := st.idCounter
    let capsule : TimeCapsule :=
      { id := capsule_id
        creator := caller
        creation_date := current_time
        unlock_date := payload.unlock_date
        content := payload.content
        access_control := payload.access_control
        metadata := payload.metadata
        status := CapsuleStatus.Sealed }
    (Except.ok capsule,
      { idCounter := capsule_id + 1
        storage := mapInsert capsule_id capsule st.storage })

/-- `validate_condition` (lib.rs lines 194-210): the three recognised
condition types are stubbed to permit; anything else is rejected. -/
def validate_condition (condition_type : String) (condition_data : String)
    (caller : String) : Except String Unit :=
  if condition_type = "token_holder" then Except.ok ()
  else if condition_type = "geo_location" then Except.ok ()
  else if condition_type = "quiz" then Except.ok ()
  else Except.error "Unknown condition type"

/-- `get_capsule` (lib.rs lines 159-191): not-found check, then the time gate,
then the access-control dispatch. -/
def get_capsule (caller : String) (current_time : Nat) (capsule_id : Nat)
    (st : State) : Except String TimeCapsule :=
  match mapGet capsule_id st.storage with
  | some capsule =>
      if current_time < capsule.unlock_date then
        Except.error "Capsule is still sealed"
      else
        match capsule.access_control with
        | AccessControl.Public => Except.ok capsule
        | AccessControl.Private allowed_viewers =>
            if allowed_viewers.contains caller || capsule.creator == caller then
              Except.ok capsule
            else
              Except.error "Access denied"
        | AccessControl.Conditional condition_type condition_data =>
            (validate_condition condition_type condition_data caller).map
              (fun _ => capsule)
  | none => Except.error "Capsule not found"

/-- The filter predicate of `get_public_capsules`:
`matches!(capsule.access_control, AccessControl::Public) && current_time >= capsule.unlock_date`. -/
def isPublicUnlocked (current_time : Nat) (capsule : TimeCapsule) : Bool :=
  (match capsule.access_control with
   | AccessControl.Public => true
   | _ => false) && decide (current_time ≥ capsule.unlock_date)

/-- `get_public_capsules` (lib.rs lines 213-227): iterate the storage in
ascending id order, keep public unlocked capsules. -/
def get_public_capsules (current_time : Nat) (st : State) : List TimeCapsule :=
  (st.storage.filter (fun p => isPublicUnlocked current_time p.2)).map (fun p => p.2)

/-- Rust `f64::to_radians`: multiply by π/180. -/
noncomputable def toRadians (x : ℝ) : ℝ := x * (Real.pi / 180)

/-- `calculate_distance` (lib.rs lines 251-265): the haversine great-circle
formula with Earth radius 6371 km, idealised over the reals. -/
noncomputable def calculate_distance (lat1 lon1 lat2 lon2 : ℝ) : ℝ :=
  let R : ℝ := 6371
  let lat1_rad := toRadians lat1
  let lat2_rad := toRadians lat2
  let delta_lat := toRadians (lat2 - lat1)
  let delta_lon := toRadians (lon2 - lon1)
  let a := Real.sin (delta_lat / 2) ^ 2 +
    Real.cos lat1_rad * Real.cos lat2_rad * Real.sin (delta_lon / 2) ^ 2
  let c := 2 * Real.arcsin (Real.sqrt a)
  R * c

open Classical in
/-- The filter predicate of `get_capsules_by_location`: a capsule with no
metadata location is excluded; otherwise its distance to the query point is
compared with the radius. -/
noncomputable def withinRadius (latitude longitude radius_km : ℚ)
    (capsule : TimeCapsule) : Bool :=
  match capsule.metadata.location with
  | some location =>
      decide (calculate_distance (latitude : ℝ) (longitude : ℝ)
        (location.latitude : ℝ) (location.longitude : ℝ) ≤ (radius_km : ℝ))
  | none => false

/-- `get_capsules_by_location` (lib.rs lines 230-248): iterate the storage in
ascending id order, keep capsules whose location lies within the radius. -/
noncomputable def get_capsules_by_location (latitude longitude radius_km : ℚ)
    (st : State) : List TimeCapsule :=
  (st.storage.filter (fun p => withinRadius latitude longitude radius_km p.2)).map
    (fun p => p.2)

/-- Run a sequence of `create_time_capsule` calls (caller, time, payload),
collecting the per-call results and the final state. -/
def runCreates : List (String × Nat × CreateCapsulePayload) → State →
    List (Except String TimeCapsule) × State
  | [], st => ([], st)
  | (caller, now, payload) :: rest, st =>
      let r := create_time_capsule caller now payload st
      let rs := runCreates rest r.2
      (r.1 :: rs.1, rs.2)

/-- The ids of the successful results of a run. -/
def okIds (rs : List (Except String TimeCapsule)) : List Nat :=
  rs.filterMap (fun r =>
    match r with
    | Except.ok c => some c.id
    | Except.error _ => none)

/-- `true` exactly on successful results. -/
def isOkResult (r : Except String TimeCapsule) : Bool :=
  match r with
  | Except.ok _ => true
  | Except.error _ => false

/-! ## Concrete fixtures used by witnesses and counterexamples -/

/-- A concrete metadata value with no location. -/
def sampleMetadata : CapsuleMetadata :=
  { title := "t", description := "d", tags := [], location := none,
    cultural_significance := none }

/-- A concrete valid payload (unlock date 5). -/
def samplePayload : CreateCapsulePayload :=
  { content := CapsuleContent.Text "hello", unlock_date := 5,
    access_control := AccessControl.Public, metadata := sampleMetadata }

/-- A concrete payload whose content is the empty plain text. -/
def emptyTextPayload : CreateCapsulePayload :=
  { content := CapsuleContent.Text "", unlock_date := 100,
    access_control := AccessControl.Public, metadata := sampleMetadata }

/-- A concrete capsule that unlocks at time 10. -/
def sealedCapsule : TimeCapsule :=
  { id := 0, creator := "alice", creation_date := 0, unlock_date := 10,
    content := CapsuleContent.Text "hi",
    access_control := AccessControl.Private ["bob"],
    metadata := sampleMetadata, status := CapsuleStatus.Sealed }

/-- A concrete private capsule (creator "alice", viewer "bob"). -/
def privateCapsule : TimeCapsule :=
  { id := 1, creator := "alice", creation_date := 0, unlock_date := 10,
    content := CapsuleContent.Text "secret",
    access_control := AccessControl.Private ["bob"],
    metadata := sampleMetadata, status := CapsuleStatus.Sealed }

/-- A concrete conditional capsule with condition type "quiz". -/
def conditionalCapsule : TimeCapsule :=
  { id := 2, creator := "alice", creation_date := 0, unlock_date := 10,
    content := CapsuleContent.Text "riddle",
    access_control := AccessControl.Conditional "quiz" "qdata",
    metadata := sampleMetadata, status := CapsuleStatus.Sealed }

/-! ## Helper definitions for the claim statements -/

/-- The record built by a successful `create_time_capsule` call. -/
def newCapsule (caller : String) (current_time : Nat)
    (payload : CreateCapsulePayload) (st : State) : TimeCapsule :=
  { id := st.idCounter
    creator := caller
    creation_date := current_time
    unlock_date := payload.unlock_date
    content := payload.content
    access_control := payload.access_control
    metadata := payload.metadata
    status := CapsuleStatus.Sealed }

/-- The state after a successful `create_time_capsule` call. -/
def nextState (caller : String) (current_time : Nat)
    (payload : CreateCapsulePayload) (st : State) : State :=
  { idCounter := st.idCounter + 1
    storage := mapInsert st.idCounter (newCapsule caller current_time payload st) st.storage }

/-- States reachable from a fresh canister by `create_time_capsule` calls
(the only state-mutating operation). -/
inductive Reachable : State → Prop where
  | init : Reachable initState
  | step (caller : String) (now : Nat) (payload : CreateCapsulePayload) (s : State) :
      Reachable s → Reachable (create_time_capsule caller now payload s).2

/-- Store invariant: entries are strictly sorted by key, each entry's capsule
carries its key as `id`, and every key is below the counter. -/
def StoreInv (s : State) : Prop :=
  s.storage.Pairwise (fun p q => p.1 < q.1) ∧
    ∀ p ∈ s.storage, p.2.id = p.1 ∧ p.1 < s.idCounter

/-- A concrete reachable state holding two capsules (ids 0 and 1). -/
def witnessState : State :=
  (create_time_capsule "b" 1 samplePayload
    (create_time_capsule "a" 0 samplePayload initState).2).2

/-! ## Record codec

Modelled from the spec: the byte serialisation of a capsule record is
performed by the `candid` crate (`Encode!`/`Decode!` in the `Storable`
implementation), whose code is not part of this repository.  Following the
spec's codec contract — "produce a deterministic byte encoding preserving all
fields, decodable by `decode` back to an equal value" — we model it as a
concrete length-prefixed tag encoding into a list of byte values. -/

/-- Encode a natural number: length-prefixed little-endian base-256 digits. -/
def encNat (n : Nat) : List Nat :=
  (Nat.digits 256 n).length :: Nat.digits 256 n

/-- Decode a natural number, returning it with the unread remainder. -/
def decNat : List Nat → Option (Nat × List Nat)
  | [] => none
  | len :: rest =>
      if len ≤ rest.length then some (Nat.ofDigits 256 (rest.take len), rest.drop len)
      else none

/-- Encode an integer: a sign tag followed by the magnitude. -/
def encInt (i : Int) : List Nat :=
  match i with
  | Int.ofNat n => 0 :: encNat n
  | Int.negSucc n => 1 :: encNat n

/-- Decode an integer. -/
def decInt : List Nat → Option (Int × List Nat)
  | 0 :: rest => (decNat rest).map (fun r => (Int.ofNat r.1, r.2))
  | 1 :: rest => (decNat rest).map (fun r => (Int.negSucc r.1, r.2))
  | _ => none

/-- Encode a rational (an `f64` coordinate in the model): numerator then
denominator. -/
def encRat (q : ℚ) : List Nat := encInt q.num ++ encNat q.den

/-- Decode a rational. -/
def decRat (ts : List Nat) : Option (ℚ × List Nat) :=
  match decInt ts with
  | some (n, r) =>
      match decNat r with
      | some (d, r') => some ((n : ℚ) / (d : ℚ), r')
      | none => none
  | none => none

/-- Encode a list element-wise with a count prefix. -/
def encListWith (enc1 : α → List Nat) (l : List α) : List Nat :=
  encNat l.length ++ (l.map enc1).flatten

/-- Decode exactly `k` consecutive elements. -/
def decCountWith (dec1 : List Nat → Option (α × List Nat)) :
    Nat → List Nat → Option (List α × List Nat)
  | 0, ts => some ([], ts)
  | k + 1, ts =>
      match dec1 ts with
      | some (a, r) =>
          match decCountWith dec1 k r with
          | some (l, r') => some (a :: l, r')
          | none => none
      | none => none

/-- Decode a count-prefixed list. -/
def decListWith (dec1 : List Nat → Option (α × List Nat)) (ts : List Nat) :
    Option (List α × List Nat) :=
  match decNat ts with
  | some (n, r) => decCountWith dec1 n r
  | none => none

/-- Encode a character by its code point. -/
def encChar (c : Char) : List Nat := encNat c.toNat

/-- Decode a character. -/
def decChar (ts : List Nat) : Option (Char × List Nat) :=
  (decNat ts).map (fun r => (Char.ofNat r.1, r.2))

/-- Encode a string as its count-prefixed character list. -/
def encStr (s : String) : List Nat := encListWith encChar s.data

/-- Decode a string. -/
def decStr (ts : List Nat) : Option (String × List Nat) :=
  (decListWith decChar ts).map (fun r => (String.mk r.1, r.2))

/-- Encode an optional value: a presence tag, then the value if present. -/
def encOptionWith (enc1 : α → List Nat) : Option α → List Nat
  | none => [0]
  | some a => 1 :: enc1 a

/-- Decode an optional value. -/
def decOptionWith (dec1 : List Nat → Option (α × List Nat)) :
    List Nat → Option (Option α × List Nat)
  | 0 :: rest => some (none, rest)
  | 1 :: rest => (dec1 rest).map (fun r => (some r.1, r.2))
  | _ => none

/-- Encode a geolocation: both coordinates, then the display name. -/
def encGeo (g : GeoLocation) : List Nat :=
  encRat g.latitude ++ encRat g.longitude ++ encStr g.location_name

/-- Decode a geolocation. -/
def decGeo (ts : List Nat) : Option (GeoLocation × List Nat) :=
  match decRat ts with
  | some (lat, r1) =>
      match decRat r1 with
      | some (lon, r2) =>
          match decStr r2 with
          | some (nm, r3) =>
              some ({ latitude := lat, longitude := lon, location_name := nm }, r3)
          | none => none
      | none => none
  | none => none

/-- Encode a capsule status as a tag. -/
def encStatus : CapsuleStatus → List Nat
  | CapsuleStatus.Sealed => [0]
  | CapsuleStatus.UnlockPending => [1]
  | CapsuleStatus.Unlocked => [2]
  | CapsuleStatus.Archived => [3]

/-- Decode a capsule status. -/
def decStatus : List Nat → Option (CapsuleStatus × List Nat)
  | 0 :: rest => some (CapsuleStatus.Sealed, rest)
  | 1 :: rest => some (CapsuleStatus.UnlockPending, rest)
  | 2 :: rest => some (CapsuleStatus.Unlocked, rest)
  | 3 :: rest => some (CapsuleStatus.Archived, rest)
  | _ => none

/-- Encode an access-control value. -/
def encAccess : AccessControl → List Nat
  | AccessControl.Public => [0]
  | AccessControl.Private vs => 1 :: encListWith encStr vs
  | AccessControl.Conditional t d => 2 :: (encStr t ++ encStr d)

/-- Decode an access-control value. -/
def decAccess : List Nat → Option (AccessControl × List Nat)
  | 0 :: rest => some (AccessControl.Public, rest)
  | 1 :: rest => (decListWith decStr rest).map (fun r => (AccessControl.Private r.1, r.2))
  | 2 :: rest =>
      match decStr rest with
      | some (t, r1) =>
          match decStr r1 with
          | some (d, r2) => some (AccessControl.Conditional t d, r2)
          | none => none
      | none => none
  | _ => none

/-- Encode the metadata record field by field. -/
def encMetadata (m : CapsuleMetadata) : List Nat :=
  encStr m.title ++ encStr m.description ++ encListWith encStr m.tags ++
    encOptionWith encGeo m.location ++ encOptionWith encStr m.cultural_significance

/-- Decode the metadata record. -/
def decMetadata (ts : List Nat) : Option (CapsuleMetadata × List Nat) :=
  match decStr ts with
  | some (ti, r1) =>
      match decStr r1 with
      | some (de, r2) =>
          match decListWith decStr r2 with
          | some (tg, r3) =>
              match decOptionWith decGeo r3 with
              | some (lo, r4) =>
                  match decOptionWith decStr r4 with
                  | some (cs, r5) =>
                      some ({ title := ti, description := de, tags := tg,
                              location := lo, cultural_significance := cs }, r5)
                  | none => none
              | none => none
          | none => none
      | none => none
  | none => none

mutual

/-- Encode a content tree: a variant tag followed by the payload; multipart
parts are encoded in order after a count. -/
def encContent : CapsuleContent → List Nat
  | CapsuleContent.Text s => 0 :: encStr s
  | CapsuleContent.EncryptedMessage content public_key =>
      1 :: (encListWith encNat content ++ encStr public_key)
  | CapsuleContent.MediaReference ipfs_hash media_type =>
      2 :: (encStr ipfs_hash ++ encStr media_type)
  | CapsuleContent.MultipartMessage parts title =>
      3 :: (encNat parts.length ++ encParts parts ++ encStr title)

/-- Encode a list of content trees back to back. -/
def encParts : List CapsuleContent → List Nat
  | [] => []
  | p :: ps => encContent p ++ encParts ps

end

mutual

/-- Nesting depth of a content tree (≥ 1). -/
def depthContent : CapsuleContent → Nat
  | CapsuleContent.MultipartMessage parts _ => depthParts parts + 1
  | _ => 1

/-- Maximal nesting depth of a list of content trees. -/
def depthParts : List CapsuleContent → Nat
  | [] => 0
  | p :: ps => max (depthContent p) (depthParts ps)

end

mutual

/-- Decode a content tree; `fuel` bounds the multipart nesting depth. -/
def decContent : Nat → List Nat → Option (CapsuleContent × List Nat)
  | 0, _ => none
  | fuel + 1, ts =>
      match ts with
      | 0 :: ts' => (decStr ts').map (fun r => (CapsuleContent.Text r.1, r.2))
      | 1 :: ts' =>
          match decListWith decNat ts' with
          | some (content, r1) =>
              match decStr r1 with
              | some (k, r2) => some (CapsuleContent.EncryptedMessage content k, r2)
              | none => none
          | none => none
      | 2 :: ts' =>
          match decStr ts' with
          | some (h, r1) =>
              match decStr r1 with
              | some (m, r2) => some (CapsuleContent.MediaReference h m, r2)
              | none => none
          | none => none
      | 3 :: ts' =>
          match decNat ts' with
          | some (n, r1) =>
              match decParts fuel n r1 with
              | some (ps, r2) =>
                  match decStr r2 with
                  | some (t, r3) => some (CapsuleContent.MultipartMessage ps t, r3)
                  | none => none
              | none => none
          | none => none
      | _ => none
termination_by fuel ts => (fuel, 0)

/-- Decode exactly `k` consecutive content trees. -/
def decParts : Nat → Nat → List Nat → Option (List CapsuleContent × List Nat)
  | _, 0, ts => some ([], ts)
  | fuel, k + 1, ts =>
      match decContent fuel ts with
      | some (p, r) =>
          match decParts fuel k r with
          | some (ps, r') => some (p :: ps, r')
          | none => none
      | none => none
termination_by fuel k ts => (fuel, k + 1)

end

/-- `TimeCapsule::to_bytes` — modelled from the spec: serialise every field in
order, with the content tree prefixed by its nesting depth. -/
def to_bytes (c : TimeCapsule) : List Nat :=
  encNat c.id ++ encStr c.creator ++ encNat c.creation_date ++ encNat c.unlock_date ++
    encNat (depthContent c.content) ++ encContent c.content ++
    encAccess c.access_control ++ encMetadata c.metadata ++ encStatus c.status

/-- `TimeCapsule::from_bytes` — modelled from the spec: decode every field in
order and require the buffer to be fully consumed. -/
def from_bytes (ts : List Nat) : Option TimeCapsule := do
  let (id, r1) ← decNat ts
  let (creator, r2) ← decStr r1
  let (creation_date, r3) ← decNat r2
  let (unlock_date, r4) ← decNat r3
  let (fuel, r5) ← decNat r4
  let (content, r6) ← decContent fuel r5
  let (access_control, r7) ← decAccess r6
  let (metadata, r8) ← decMetadata r7
  let (status, r9) ← decStatus r8
  if r9.isEmpty then
    pure { id := id, creator := creator, creation_date := creation_date,
           unlock_date := unlock_date, content := content,
           access_control := access_control, metadata := metadata, status := status }
  else
    none

theorem create_time_capsule_of_le (caller : String) (now : Nat)
    (payload : CreateCapsulePayload) (st : State)
    (h : payload.unlock_date ≤ now) :
    create_time_capsule caller now payload st =
      (Except.error "Unlock date must be in the future", st) := by
  unfold create_time_capsule
  rw [if_pos h]

theorem create_time_capsule_of_lt (caller : String) (now : Nat)
    (payload : CreateCapsulePayload) (st : State)
    (h : now < payload.unlock_date) :
    create_time_capsule caller now payload st =
      (Except.ok (newCapsule caller now payload st), nextState caller now payload st) := by
  unfold create_time_capsule nextState
  rw [if_neg (by omega)]
  rfl

theorem mapGet_mapInsert_self (k : Nat) (v : TimeCapsule)
    (l : List (Nat × TimeCapsule)) : mapGet k (mapInsert k v l) = some v := by
  induction l with
  | nil => simp [mapInsert, mapGet]
  | cons p rest ih =>
      obtain ⟨k', v'⟩ := p
      by_cases h1 : k < k'
      · simp [mapInsert, h1, mapGet]
      · by_cases h2 : k = k'
        · simp [mapInsert, h1, h2, mapGet]
        · simp [mapInsert, h1, h2, mapGet, ih]

theorem isPublicUnlocked_iff (now : Nat) (c : TimeCapsule) :
    isPublicUnlocked now c = true ↔
      c.access_control = AccessControl.Public ∧ c.unlock_date ≤ now := by
  cases hac : c.access_control <;>
    simp [isPublicUnlocked, hac, ge_iff_le]

/-- Generalisation of the id-sequence property to an arbitrary start state:
an all-successful run assigns the consecutive ids starting at the current
counter value and advances the counter by the number of calls. -/
theorem runCreates_ok_ids (calls : List (String × Nat × CreateCapsulePayload)) :
    ∀ st : State, (∀ r ∈ (runCreates calls st).1, isOkResult r = true) →
      okIds (runCreates calls st).1 = List.range' st.idCounter calls.length ∧
        (runCreates calls st).2.idCounter = st.idCounter + calls.length := by
  induction calls with
  | nil => intro st _; simp [runCreates, okIds]
  | cons call rest ih =>
      intro st h
      obtain ⟨caller, now, payload⟩ := call
      by_cases hv : payload.unlock_date ≤ now
      · exfalso
        have hmem : (create_time_capsule caller now payload st).1 ∈
            (runCreates ((caller, now, payload) :: rest) st).1 := by
          simp [runCreates]
        have := h _ hmem
        rw [create_time_capsule_of_le caller now payload st hv] at this
        simp [isOkResult] at this
      · have hlt : now < payload.unlock_date := by omega
        have hstep := create_time_capsule_of_lt caller now payload st hlt
        have hrun : runCreates ((caller, now, payload) :: rest) st =
            (Except.ok (newCapsule caller now payload st) ::
               (runCreates rest (nextState caller now payload st)).1,
             (runCreates rest (nextState caller now payload st)).2) := by
          simp only [runCreates, hstep]
        have htail : ∀ r ∈ (runCreates rest (nextState caller now payload st)).1,
            isOkResult r = true := by
          intro r hr
          apply h
          rw [hrun]
          exact List.mem_cons_of_mem _ hr
        obtain ⟨ih1, ih2⟩ := ih (nextState caller now payload st) htail
        rw [hrun]
        refine ⟨?_, ?_⟩
        · show (newCapsule caller now payload st).id ::
              okIds (runCreates rest (nextState caller now payload st)).1 =
            List.range' st.idCounter ((caller, now, payload) :: rest).length
          rw [ih1]
          show st.idCounter :: List.range' (st.idCounter + 1) rest.length =
            List.range' st.idCounter (rest.length + 1)
          rw [List.range'_succ st.idCounter rest.length 1]
        · rw [ih2]
          show st.idCounter + 1 + rest.length =
            st.idCounter + ((caller, now, payload) :: rest).length
          simp only [List.length_cons]
          omega

/-! ## The claims -/

/-- C1, counterexample: a creation payload whose content is the empty plain
text and whose unlock date is in the future is NOT rejected with
"content cannot be empty" — the call succeeds and a capsule is stored. -/
theorem create_empty_text_not_rejected :
    (create_time_capsule "alice" 0 emptyTextPayload initState).1 =
        Except.ok (newCapsule "alice" 0 emptyTextPayload initState) ∧
      (create_time_capsule "alice" 0 emptyTextPayload initState).1 ≠
        Except.error "content cannot be empty" ∧
      (create_time_capsule "alice" 0 emptyTextPayload initState).2.storage =
        [(0, newCapsule "alice" 0 emptyTextPayload initState)] := by
  refine ⟨rfl, ?_, rfl⟩
  intro h
  exact Except.noConfusion ((rfl :
    (create_time_capsule "alice" 0 emptyTextPayload initState).1 =
      Except.ok (newCapsule "alice" 0 emptyTextPayload initState)) ▸ h)

/-- C1 (amended): `create_time_capsule` performs no content validation — a
payload with empty plain-text content and a future unlock date succeeds, and
the capsule (with its empty text content) is stored under the assigned id. -/
theorem create_empty_text_succeeds (caller : String) (now : Nat)
    (payload : CreateCapsulePayload) (st : State)
    (hcontent : payload.content = CapsuleContent.Text "")
    (hfuture : now < payload.unlock_date) :
    ∃ cap, (create_time_capsule caller now payload st).1 = Except.ok cap ∧
      cap.content = CapsuleContent.Text "" ∧
      mapGet cap.id (create_time_capsule caller now payload st).2.storage = some cap := by
  rw [create_time_capsule_of_lt caller now payload st hfuture]
  exact ⟨newCapsule caller now payload st, rfl, by simp [newCapsule, hcontent],
    mapGet_mapInsert_self _ _ _⟩

/-- C1 witness. -/
theorem create_empty_text_succeeds_witness :
    emptyTextPayload.content = CapsuleContent.Text "" ∧
      (0 : Nat) < emptyTextPayload.unlock_date ∧
      ∃ cap, (create_time_capsule "alice" 0 emptyTextPayload initState).1 = Except.ok cap ∧
        cap.content = CapsuleContent.Text "" ∧
        mapGet cap.id (create_time_capsule "alice" 0 emptyTextPayload initState).2.storage =
          some cap :=
  ⟨rfl, by decide,
    create_empty_text_succeeds "alice" 0 emptyTextPayload initState rfl (by decide)⟩

/-- C2: a stored capsule read strictly before its unlock date yields the
sealed error, for every caller and whatever the access control. -/
theorem get_capsule_sealed (caller : String) (now : Nat) (capsule_id : Nat)
    (st : State) (c : TimeCapsule)
    (hget : mapGet capsule_id st.storage = some c)
    (hsealed : now < c.unlock_date) :
    get_capsule caller now capsule_id st = Except.error "Capsule is still sealed" := by
  unfold get_capsule
  rw [hget]
  simp [hsealed]

/-- C2 witness. -/
theorem get_capsule_sealed_witness :
    mapGet 0 [(0, sealedCapsule)] = some sealedCapsule ∧
      (5 : Nat) < sealedCapsule.unlock_date ∧
      get_capsule "bob" 5 0 { idCounter := 1, storage := [(0, sealedCapsule)] } =
        Except.error "Capsule is still sealed" :=
  ⟨rfl, by decide, get_capsule_sealed "bob" 5 0 _ sealedCapsule rfl (by decide)⟩

/-- C3: starting from the initial state, an all-successful sequence of N
creation calls assigns exactly the ids 0, 1, …, N-1 in call order, and the
counter ends at N (one increment per successful creation). -/
theorem create_ids_sequential (calls : List (String × Nat × CreateCapsulePayload))
    (h : ∀ r ∈ (runCreates calls initState).1, isOkResult r = true) :
    okIds (runCreates calls initState).1 = List.range calls.length ∧
      (runCreates calls initState).2.idCounter = calls.length := by
  have hmain := runCreates_ok_ids calls initState h
  rw [List.range_eq_range']
  simpa [initState] using hmain

/-- C3 witness: two successful creations get ids `[0, 1]`. -/
theorem create_ids_sequential_witness :
    okIds (runCreates [("a", 0, samplePayload), ("b", 1, samplePayload)] initState).1 =
        List.range 2 ∧
      (runCreates [("a", 0, samplePayload), ("b", 1, samplePayload)] initState).2.idCounter = 2 :=
  create_ids_sequential [("a", 0, samplePayload), ("b", 1, samplePayload)] (by decide)

/-- C4: a creation payload whose unlock date is not in the future is rejected
with the future-date error and the state (counter and storage) is unchanged. -/
theorem create_past_unlock_rejected (caller : String) (now : Nat)
    (payload : CreateCapsulePayload) (st : State)
    (h : payload.unlock_date ≤ now) :
    create_time_capsule caller now payload st =
      (Except.error "Unlock date must be in the future", st) :=
  create_time_capsule_of_le caller now payload st h

/-- C4 witness. -/
theorem create_past_unlock_rejected_witness :
    samplePayload.unlock_date ≤ 7 ∧
      create_time_capsule "alice" 7 samplePayload initState =
        (Except.error "Unlock date must be in the future", initState) :=
  ⟨by decide, create_past_unlock_rejected "alice" 7 samplePayload initState (by decide)⟩

/-- C5: reading an unlocked Private capsule succeeds (returning the capsule)
iff the caller is the creator or appears in the allow-list, and is otherwise
denied with "Access denied". -/
theorem get_capsule_private (caller : String) (now : Nat) (capsule_id : Nat)
    (st : State) (c : TimeCapsule) (vs : List String)
    (hget : mapGet capsule_id st.storage = some c)
    (hac : c.access_control = AccessControl.Private vs)
    (hunlocked : c.unlock_date ≤ now) :
    (get_capsule caller now capsule_id st = Except.ok c ↔
        caller = c.creator ∨ caller ∈ vs) ∧
      (¬ (caller = c.creator ∨ caller ∈ vs) →
        get_capsule caller now capsule_id st = Except.error "Access denied") := by
  have hlt : ¬ now < c.unlock_date := by omega
  have hcond : (vs.contains caller || c.creator == caller) = true ↔
      caller = c.creator ∨ caller ∈ vs := by
    simp only [Bool.or_eq_true, List.elem_iff, beq_iff_eq]
    constructor
    · rintro (hmem | hequ)
      · exact Or.inr hmem
      · exact Or.inl hequ.symm
    · rintro (hequ | hmem)
      · exact Or.inr hequ.symm
      · exact Or.inl hmem
  unfold get_capsule
  rw [hget]
  simp only [hlt, if_false, hac]
  by_cases hin : caller = c.creator ∨ caller ∈ vs
  · rw [if_pos (hcond.2 hin)]
    simp [hin]
  · rw [if_neg (fun hb => hin (hcond.1 hb))]
    simp [hin]

/-- C5 witness: "bob" is in the allow-list and gets the capsule. -/
theorem get_capsule_private_witness :
    mapGet 1 [(1, privateCapsule)] = some privateCapsule ∧
      privateCapsule.access_control = AccessControl.Private ["bob"] ∧
      privateCapsule.unlock_date ≤ 15 ∧
      get_capsule "bob" 15 1 { idCounter := 2, storage := [(1, privateCapsule)] } =
        Except.ok privateCapsule :=
  ⟨rfl, rfl, by decide,
    (get_capsule_private "bob" 15 1 { idCounter := 2, storage := [(1, privateCapsule)] }
      privateCapsule ["bob"] rfl rfl (by decide)).1.mpr (Or.inr (by decide))⟩

/-- C6: reading an unlocked Conditional capsule succeeds for every caller when
the condition type is one of the three recognised ones, and fails with the
unknown-condition error for any other type. -/
theorem get_capsule_conditional (caller : String) (now : Nat) (capsule_id : Nat)
    (st : State) (c : TimeCapsule) (ct cd : String)
    (hget : mapGet capsule_id st.storage = some c)
    (hac : c.access_control = AccessControl.Conditional ct cd)
    (hunlocked : c.unlock_date ≤ now) :
    ((ct = "token_holder" ∨ ct = "geo_location" ∨ ct = "quiz") →
        get_capsule caller now capsule_id st = Except.ok c) ∧
      (¬ (ct = "token_holder" ∨ ct = "geo_location" ∨ ct = "quiz") →
        get_capsule caller now capsule_id st = Except.error "Unknown condition type") := by
  have hlt : ¬ now < c.unlock_date := by omega
  unfold get_capsule
  rw [hget]
  simp only [hlt, if_false, hac]
  constructor
  · rintro (rfl | rfl | rfl) <;> simp [validate_condition, Except.map]
  · intro hn
    have h1 : ¬ ct = "token_holder" := fun e => hn (Or.inl e)
    have h2 : ¬ ct = "geo_location" := fun e => hn (Or.inr (Or.inl e))
    have h3 : ¬ ct = "quiz" := fun e => hn (Or.inr (Or.inr e))
    simp [validate_condition, h1, h2, h3, Except.map]

/-- C6 witness: condition type "quiz" permits, an unknown type is rejected. -/
theorem get_capsule_conditional_witness :
    mapGet 2 [(2, conditionalCapsule)] = some conditionalCapsule ∧
      conditionalCapsule.access_control = AccessControl.Conditional "quiz" "qdata" ∧
      conditionalCapsule.unlock_date ≤ 15 ∧
      get_capsule "carol" 15 2 { idCounter := 3, storage := [(2, conditionalCapsule)] } =
        Except.ok conditionalCapsule :=
  ⟨rfl, rfl, by decide,
    (get_capsule_conditional "carol" 15 2 { idCounter := 3, storage := [(2, conditionalCapsule)] }
      conditionalCapsule "quiz" "qdata" rfl rfl (by decide)).1 (Or.inr (Or.inr rfl))⟩

/-- C7: `get_public_capsules` returns exactly the stored capsules with Public
access control whose unlock date has passed; Private and Conditional capsules
never appear. -/
theorem get_public_capsules_mem (now : Nat) (st : State) (c : TimeCapsule) :
    c ∈ get_public_capsules now st ↔
      (∃ k, (k, c) ∈ st.storage) ∧
        c.access_control = AccessControl.Public ∧ c.unlock_date ≤ now := by
  unfold get_public_capsules
  simp only [List.mem_map, List.mem_filter]
  constructor
  · rintro ⟨⟨k, c'⟩, ⟨hmem, hpred⟩, rfl⟩
    rcases (isPublicUnlocked_iff now c').1 hpred with ⟨hpub, hdate⟩
    exact ⟨⟨k, hmem⟩, hpub, hdate⟩
  · rintro ⟨⟨k, hmem⟩, hpub, hdate⟩
    exact ⟨(k, c), ⟨hmem, (isPublicUnlocked_iff now c).2 ⟨hpub, hdate⟩⟩, rfl⟩

/-! ## Codec roundtrip lemmas -/

theorem decNat_enc (n : Nat) (r : List Nat) : decNat (encNat n ++ r) = some (n, r) := by
  have h : encNat n ++ r = (Nat.digits 256 n).length :: (Nat.digits 256 n ++ r) := by
    simp [encNat]
  rw [h]
  simp only [decNat]
  rw [if_pos (by simp)]
  rw [List.take_left, List.drop_left, Nat.ofDigits_digits]

theorem decInt_enc (i : Int) (r : List Nat) : decInt (encInt i ++ r) = some (i, r) := by
  cases i with
  | ofNat n => simp only [encInt, List.cons_append, decInt, decNat_enc, Option.map_some']
  | negSucc n => simp only [encInt, List.cons_append, decInt, decNat_enc, Option.map_some']

theorem decRat_enc (q : ℚ) (r : List Nat) : decRat (encRat q ++ r) = some (q, r) := by
  simp only [encRat, List.append_assoc, decRat, decInt_enc, decNat_enc, Rat.num_div_den]

theorem decCountWith_enc (dec1 : List Nat → Option (α × List Nat)) (enc1 : α → List Nat)
    (l : List α) (r : List Nat)
    (h : ∀ a ∈ l, ∀ r', dec1 (enc1 a ++ r') = some (a, r')) :
    decCountWith dec1 l.length ((l.map enc1).flatten ++ r) = some (l, r) := by
  induction l with
  | nil => simp [decCountWith]
  | cons a l ih =>
      have h1 := h a (List.mem_cons_self a l)
      have h2 := ih (fun b hb => h b (List.mem_cons_of_mem a hb))
      simp only [List.map_cons, List.flatten_cons, List.length_cons, List.append_assoc,
        decCountWith, h1, h2]

theorem decListWith_enc (dec1 : List Nat → Option (α × List Nat)) (enc1 : α → List Nat)
    (l : List α) (r : List Nat)
    (h : ∀ a ∈ l, ∀ r', dec1 (enc1 a ++ r') = some (a, r')) :
    decListWith dec1 (encListWith enc1 l ++ r) = some (l, r) := by
  simp only [encListWith, decListWith, List.append_assoc, decNat_enc]
  exact decCountWith_enc dec1 enc1 l r h

theorem decChar_enc (c : Char) (r : List Nat) : decChar (encChar c ++ r) = some (c, r) := by
  simp only [encChar, decChar, decNat_enc, Option.map_some', Char.ofNat_toNat]

theorem decStr_enc (s : String) (r : List Nat) : decStr (encStr s ++ r) = some (s, r) := by
  simp only [encStr, decStr,
    decListWith_enc decChar encChar s.data r (fun c _ r' => decChar_enc c r'),
    Option.map_some']

theorem decOptionWith_enc (dec1 : List Nat → Option (α × List Nat)) (enc1 : α → List Nat)
    (o : Option α) (r : List Nat)
    (h : ∀ a r', dec1 (enc1 a ++ r') = some (a, r')) :
    decOptionWith dec1 (encOptionWith enc1 o ++ r) = some (o, r) := by
  cases o with
  | none => simp [encOptionWith, decOptionWith]
  | some a => simp [encOptionWith, decOptionWith, h a r]

theorem decGeo_enc (g : GeoLocation) (r : List Nat) : decGeo (encGeo g ++ r) = some (g, r) := by
  simp only [encGeo, List.append_assoc, decGeo, decRat_enc, decStr_enc]

theorem decStatus_enc (s : CapsuleStatus) (r : List Nat) :
    decStatus (encStatus s ++ r) = some (s, r) := by
  cases s <;> simp [encStatus, decStatus]

theorem decAccess_enc (a : AccessControl) (r : List Nat) :
    decAccess (encAccess a ++ r) = some (a, r) := by
  cases a with
  | Public => simp [encAccess, decAccess]
  | Private vs =>
      simp only [encAccess, List.cons_append, decAccess,
        decListWith_enc decStr encStr vs r (fun s _ r' => decStr_enc s r'), Option.map_some']
  | Conditional t d =>
      simp only [encAccess, List.cons_append, List.append_assoc, decAccess, decStr_enc]

theorem decMetadata_enc (m : CapsuleMetadata) (r : List Nat) :
    decMetadata (encMetadata m ++ r) = some (m, r) := by
  simp only [encMetadata, List.append_assoc, decMetadata, decStr_enc,
    decListWith_enc decStr encStr m.tags _ (fun s _ r' => decStr_enc s r'),
    decOptionWith_enc decGeo encGeo m.location _ (fun g r' => decGeo_enc g r'),
    decOptionWith_enc decStr encStr m.cultural_significance _ (fun s r' => decStr_enc s r')]

theorem depthContent_pos (c : CapsuleContent) : 1 ≤ depthContent c := by
  cases c <;> simp [depthContent]

/-- Simultaneous roundtrip for content trees and part lists, by induction on
the fuel bound on the nesting depth. -/
theorem decContent_enc_aux (fuel : Nat) :
    (∀ c : CapsuleContent, depthContent c ≤ fuel →
        ∀ r, decContent fuel (encContent c ++ r) = some (c, r)) ∧
      (∀ ps : List CapsuleContent, depthParts ps ≤ fuel →
        ∀ r, decParts fuel ps.length (encParts ps ++ r) = some (ps, r)) := by
  induction fuel with
  | zero =>
      constructor
      · intro c hc
        exact absurd (le_trans (depthContent_pos c) hc) (by omega)
      · intro ps hps r
        cases ps with
        | nil => simp [encParts, decParts]
        | cons p ps =>
            exfalso
            have h1 : 1 ≤ depthParts (p :: ps) :=
              le_trans (depthContent_pos p) (le_max_left _ _)
            omega
  | succ fuel ih =>
      have hA : ∀ c : CapsuleContent, depthContent c ≤ fuel + 1 →
          ∀ r, decContent (fuel + 1) (encContent c ++ r) = some (c, r) := by
        intro c hc r
        cases c with
        | Text s =>
            simp only [encContent, List.cons_append, decContent, decStr_enc, Option.map_some']
        | EncryptedMessage content public_key =>
            simp only [encContent, List.cons_append, List.append_assoc, decContent,
              decListWith_enc decNat encNat content _ (fun n _ r' => decNat_enc n r'),
              decStr_enc]
        | MediaReference ipfs_hash media_type =>
            simp only [encContent, List.cons_append, List.append_assoc, decContent, decStr_enc]
        | MultipartMessage parts title =>
            have hps : depthParts parts ≤ fuel := by
              simp only [depthContent] at hc
              omega
            simp only [encContent, List.cons_append, List.append_assoc, decContent, decNat_enc,
              ih.2 parts hps (encStr title ++ r), decStr_enc]
      refine ⟨hA, ?_⟩
      intro ps
      induction ps with
      | nil => intro _ r; simp [encParts, decParts]
      | cons p ps ihps =>
          intro hd r
          have hdp : depthContent p ≤ fuel + 1 := le_trans (le_max_left _ _) hd
          have hdps : depthParts ps ≤ fuel + 1 := le_trans (le_max_right _ _) hd
          simp only [encParts, List.length_cons, List.append_assoc, decParts,
            hA p hdp, ihps hdps r]

theorem decContent_enc (c : CapsuleContent) (fuel : Nat) (h : depthContent c ≤ fuel)
    (r : List Nat) : decContent fuel (encContent c ++ r) = some (c, r) :=
  (decContent_enc_aux fuel).1 c h r

theorem withinRadius_iff (lat lon r : ℚ) (c : TimeCapsule) :
    withinRadius lat lon r c = true ↔
      ∃ loc, c.metadata.location = some loc ∧
        calculate_distance (lat : ℝ) (lon : ℝ) (loc.latitude : ℝ) (loc.longitude : ℝ) ≤
          (r : ℝ) := by
  cases hloc : c.metadata.location with
  | none => simp [withinRadius, hloc]
  | some loc => simp [withinRadius, hloc]

/-- C8: `get_capsules_by_location` returns exactly the stored capsules whose
metadata location is within haversine distance `r` of the query point;
capsules without a location never appear, and neither the time gate nor the
access control enters the criterion. -/
theorem get_capsules_by_location_mem (lat lon r : ℚ) (st : State) (c : TimeCapsule) :
    c ∈ get_capsules_by_location lat lon r st ↔
      (∃ k, (k, c) ∈ st.storage) ∧
        ∃ loc, c.metadata.location = some loc ∧
          calculate_distance (lat : ℝ) (lon : ℝ) (loc.latitude : ℝ) (loc.longitude : ℝ) ≤
            (r : ℝ) := by
  unfold get_capsules_by_location
  simp only [List.mem_map, List.mem_filter]
  constructor
  · rintro ⟨⟨k, c'⟩, ⟨hmem, hpred⟩, rfl⟩
    exact ⟨⟨k, hmem⟩, (withinRadius_iff lat lon r c').1 hpred⟩
  · rintro ⟨⟨k, hmem⟩, hloc⟩
    exact ⟨(k, c), ⟨hmem, (withinRadius_iff lat lon r c).2 hloc⟩, rfl⟩

/-- C9: decoding the bytes produced by encoding any capsule returns that very
capsule, for all content variants including nested multipart bundles. -/
theorem capsule_roundtrip (c : TimeCapsule) : from_bytes (to_bytes c) = some c := by
  simp only [to_bytes, from_bytes, List.append_assoc]
  rw [show encStatus c.status = encStatus c.status ++ ([] : List Nat) from
    (List.append_nil _).symm]
  simp only [decNat_enc, decStr_enc, Option.bind_eq_bind, Option.some_bind]
  simp only [decContent_enc c.content (depthContent c.content) le_rfl, Option.some_bind]
  simp only [decAccess_enc, decMetadata_enc, decStatus_enc, Option.some_bind]
  simp [List.isEmpty]

/-! ## Sortedness of the listings (C10) -/

theorem mem_mapInsert (k : Nat) (v : TimeCapsule) (l : List (Nat × TimeCapsule)) :
    ∀ q ∈ mapInsert k v l, q = (k, v) ∨ q ∈ l := by
  induction l with
  | nil => intro q hq; simp [mapInsert] at hq; exact Or.inl hq
  | cons p rest ih =>
      obtain ⟨k', v'⟩ := p
      intro q hq
      by_cases h1 : k < k'
      · simp only [mapInsert, if_pos h1, List.mem_cons] at hq
        rcases hq with h | h | h
        · exact Or.inl h
        · exact Or.inr (by simp [h])
        · exact Or.inr (by simp [h])
      · by_cases h2 : k = k'
        · simp only [mapInsert, if_neg h1, if_pos h2, List.mem_cons] at hq
          rcases hq with h | h
          · exact Or.inl h
          · exact Or.inr (by simp [h])
        · simp only [mapInsert, if_neg h1, if_neg h2, List.mem_cons] at hq
          rcases hq with h | h
          · exact Or.inr (by simp [h])
          · rcases ih q h with h' | h'
            · exact Or.inl h'
            · exact Or.inr (by simp [h'])

theorem mapInsert_pairwise (k : Nat) (v : TimeCapsule) (l : List (Nat × TimeCapsule))
    (hl : l.Pairwise (fun p q => p.1 < q.1)) :
    (mapInsert k v l).Pairwise (fun p q => p.1 < q.1) := by
  induction l with
  | nil => simp [mapInsert]
  | cons p rest ih =>
      obtain ⟨k', v'⟩ := p
      rw [List.pairwise_cons] at hl
      obtain ⟨hhead, hrest⟩ := hl
      by_cases h1 : k < k'
      · simp only [mapInsert, if_pos h1]
        rw [List.pairwise_cons]
        refine ⟨?_, List.pairwise_cons.2 ⟨hhead, hrest⟩⟩
        intro q hq
        rcases List.mem_cons.1 hq with h | h
        · simp [h, h1]
        · exact lt_trans h1 (hhead q h)
      · by_cases h2 : k = k'
        · simp only [mapInsert, if_neg h1, if_pos h2]
          rw [List.pairwise_cons]
          refine ⟨?_, hrest⟩
          intro q hq
          rw [h2]
          exact hhead q hq
        · simp only [mapInsert, if_neg h1, if_neg h2]
          rw [List.pairwise_cons]
          refine ⟨?_, ih hrest⟩
          intro q hq
          rcases mem_mapInsert k v rest q hq with h | h
          · rw [h]
            omega
          · exact hhead q h

theorem reachable_storeInv (s : State) (hs : Reachable s) : StoreInv s := by
  induction hs with
  | init => exact ⟨List.Pairwise.nil, by simp [initState]⟩
  | step caller now payload s hs ih =>
      by_cases hv : payload.unlock_date ≤ now
      · rw [create_time_capsule_of_le caller now payload s hv]
        exact ih
      · rw [create_time_capsule_of_lt caller now payload s (by omega)]
        obtain ⟨hpw, hmem⟩ := ih
        constructor
        · exact mapInsert_pairwise s.idCounter (newCapsule caller now payload s) s.storage hpw
        · intro p hp
          rcases mem_mapInsert _ _ _ p hp with h | h
          · rw [h]
            exact ⟨rfl, by simp [nextState]⟩
          · obtain ⟨hid, hlt⟩ := hmem p h
            exact ⟨hid, by simp [nextState]; omega⟩

theorem pairwise_id_of_inv (s : State) (hinv : StoreInv s) :
    s.storage.Pairwise (fun p q => p.2.id < q.2.id) := by
  refine hinv.1.imp_of_mem ?_
  intro p q hp hq hlt
  rw [(hinv.2 p hp).1, (hinv.2 q hq).1]
  exact hlt

theorem filter_map_id_pairwise (s : State) (hinv : StoreInv s)
    (p : Nat × TimeCapsule → Bool) :
    (((s.storage.filter p).map (fun q => q.2)).map (fun c => c.id)).Pairwise
      (fun a b => a < b) := by
  rw [List.map_map, List.pairwise_map]
  exact (pairwise_id_of_inv s hinv).sublist (List.filter_sublist _)

/-- C10: on every reachable state, both listing operations return their
capsules in strictly ascending id order. -/
theorem listings_sorted_by_id (s : State) (now : Nat) (lat lon r : ℚ)
    (hs : Reachable s) :
    ((get_public_capsules now s).map (fun c => c.id)).Pairwise (fun a b => a < b) ∧
      ((get_capsules_by_location lat lon r s).map (fun c => c.id)).Pairwise
        (fun a b => a < b) := by
  have hinv := reachable_storeInv s hs
  exact ⟨filter_map_id_pairwise s hinv _, filter_map_id_pairwise s hinv _⟩

/-- C10 witness: a concrete reachable two-capsule state. -/
theorem listings_sorted_by_id_witness :
    Reachable witnessState ∧
      ((get_public_capsules 9 witnessState).map (fun c => c.id)).Pairwise
        (fun a b => a < b) ∧
      ((get_capsules_by_location 0 0 1 witnessState).map (fun c => c.id)).Pairwise
        (fun a b => a < b) :=
  have hreach : Reachable witnessState :=
    Reachable.step "b" 1 samplePayload _ (Reachable.step "a" 0 samplePayload _ Reachable.init)
  ⟨hreach, (listings_sorted_by_id witnessState 9 0 0 1 hreach).1,
    (listings_sorted_by_id witnessState 9 0 0 1 hreach).2⟩

end TimeCapsuleSys
